import Mathlib

/-!
Verification of the AP_FlashStorage flash test harness
(`libraries/AP_FlashStorage/examples/FlashTest/FlashTest.cpp`).

The flash device is modelled as a function from sector index and byte
address to the stored byte value.  The three flash primitives
`flash_write`, `flash_read` and `flash_erase` are translated directly
from the C++ source.  `AP_HAL::panic` aborts the process; we model it
with the `fatal` constructor of `FlashResult`, which also carries the
flash state at the moment of the abort (the C++ write loop mutates the
sector in place before a later iteration can abort, and that partial
state is observable).

Machine integers are modelled as `Nat`.  `offset` is a `uint32_t` and
`length` a `uint16_t` in the source, so the bounds comparison
`offset + length > flash_sector_size` is computed on the wrapped
32-bit sum `(offset + length) % 4294967296`; the subsequent byte
addressing is kept on `Nat` (the C pointer arithmetic that follows a
wrapped-past check is out of bounds and undefined).  The remaining
arithmetic (`length / 2`, `offset + i*2`) agrees with the machine for
all representable inputs.
-/

/-- Flash contents: sector index → byte address → byte value. -/
abbrev Flash := Nat → Nat → Nat

/-- Result of a flash primitive: either a fatal abort (`AP_HAL::panic`)
or a normal return.  Both constructors carry the flash state so that
partial mutation before an abort is observable. -/
inductive FlashResult (α : Type) where
  | fatal (fl : Flash)
  | ok (ret : α) (fl : Flash)

/-- True when the primitive aborted via `AP_HAL::panic`. -/
def FlashResult.isFatal {α : Type} : FlashResult α → Bool
  | .fatal _ => true
  | .ok _ _ => false

/-- The flash state carried by the result (final state on `ok`, state at
the abort on `fatal`). -/
def FlashResult.state {α : Type} : FlashResult α → Flash
  | .fatal fl => fl
  | .ok _ fl => fl

/-- `flash_sector_size = 32U * 1024U` from `FlashTest`. -/
def flash_sector_size : Nat := 32 * 1024

/-- Update a single byte of flash. -/
def setByte (fl : Flash) (s a v : Nat) : Flash :=
  fun s2 a2 => if s2 = s ∧ a2 = a then v else fl s2 a2

/-- `le16toh_ptr`: read a little-endian 16-bit word at byte address `a`
of sector `s`. -/
def le16 (fl : Flash) (s a : Nat) : Nat :=
  fl s a + 256 * fl s (a + 1)

/-- `put_le16_ptr`: store `v` little-endian at byte address `a` of
sector `s`. -/
def put_le16 (fl : Flash) (s a v : Nat) : Flash :=
  setByte (setByte fl s a (v % 256)) s (a + 1) (v / 256)

/-- The 16-bit word `le16toh_ptr(&data[i*2])` of the supplied data. -/
def dataWord (data : List Nat) (i : Nat) : Nat :=
  data.getD (2 * i) 0 + 256 * data.getD (2 * i + 1) 0

/-- The per-word loop of `FlashTest::flash_write`, translated verbatim.
`i` is the loop index, the second `Nat` argument is the number of
remaining iterations (`len16 - i`).  The first test models
`if (v & !v2)` with the C logical-not: `!v2` is `1` exactly when
`v2 == 0`, so the test fires only when the current word is zero and the
low bit of the data word is set.  The second test is the
`#ifndef AP_FLASHSTORAGE_MULTI_WRITE` check, compiled in because the
macro is nowhere defined in this program. -/
def write_loop (s offset : Nat) (data : List Nat) : Flash → Nat → Nat → FlashResult Bool
  | fl, _, 0 => .ok true fl
  | fl, i, n + 1 =>
    let v := dataWord data i
    let v2 := le16 fl s (offset + 2 * i)
    if (v &&& (if v2 = 0 then 1 else 0)) ≠ 0 then .fatal fl
    else if v ≠ v2 ∧ v ≠ 0xFFFF ∧ v2 ≠ 0xFFFF then .fatal fl
    else write_loop s offset data (put_le16 fl s (offset + 2 * i) (v2 &&& v)) (i + 1) n

/-- `FlashTest::flash_write`, translated from the source: reject
`sector > 1`, reject `offset + length > flash_sector_size` — where the
sum is the C `uint32_t` sum, wrapped modulo `2^32 = 4294967296` — and
reject odd `offset` or odd `length`, then run the 16-bit word loop
over `len16 = length / 2` words. -/
def flash_write (fl : Flash) (sector offset : Nat) (data : List Nat) (length : Nat) :
    FlashResult Bool :=
  if sector > 1 then .fatal fl
  else if (offset + length) % 4294967296 > flash_sector_size then .fatal fl
  else if offset % 2 = 1 ∨ length % 2 = 1 then .fatal fl
  else write_loop sector offset data fl 0 (length / 2)

/-- `FlashTest::flash_read`, translated from the source: reject
`sector > 1` and reads whose wrapped `uint32_t` sum `offset + length`
exceeds the sector size, otherwise `memcpy` the requested bytes out of
the sector and return `true`. -/
def flash_read (fl : Flash) (sector offset length : Nat) :
    FlashResult (Bool × List Nat) :=
  if sector > 1 then .fatal fl
  else if (offset + length) % 4294967296 > flash_sector_size then .fatal fl
  else .ok (true, (List.range length).map (fun j => fl sector (offset + j))) fl

/-- `FlashTest::flash_erase`, translated from the source: reject
`sector > 1`, otherwise `memset` the whole `flash_sector_size` byte
sector to `0xFF` and return `true`. -/
def flash_erase (fl : Flash) (sector : Nat) : FlashResult Bool :=
  if sector > 1 then .fatal fl
  else .ok true
    (fun s a => if s = sector ∧ a < flash_sector_size then 0xFF else fl s a)

/-- A flash state is well formed when every stored byte fits in 8 bits. -/
def FlashWF (fl : Flash) : Prop := ∀ s a, fl s a < 256

/-- A concrete fully erased flash, used for witnesses. -/
def erasedFlash : Flash := fun _ _ => 0xFF

/-- The returned value on a normal return, or the supplied default if
the primitive aborted. -/
def FlashResult.retD {α : Type} : FlashResult α → α → α
  | .fatal _, d => d
  | .ok r _, _ => r

/-- The write loop never returns `false`: its only normal exit is
`return true`. -/
theorem write_loop_ret_true (s offset : Nat) (data : List Nat) :
    ∀ (fl : Flash) (i n : Nat),
      (write_loop s offset data fl i n).isFatal = true ∨
      (write_loop s offset data fl i n).retD false = true := by
  intro fl i n
  induction n generalizing fl i with
  | zero => right; rfl
  | succ n ih =>
    rw [write_loop]
    split_ifs <;> first | (left; rfl) | exact ih _ _

/-- Bytes other than the two addressed by `put_le16` are unchanged. -/
theorem put_le16_outside (fl : Flash) (s a v s2 a2 : Nat)
    (h : s2 ≠ s ∨ (a2 ≠ a ∧ a2 ≠ a + 1)) :
    put_le16 fl s a v s2 a2 = fl s2 a2 := by
  simp only [put_le16, setByte]
  rw [if_neg (by tauto), if_neg (by tauto)]

/-- The low byte stored by `put_le16`. -/
theorem put_le16_lo (fl : Flash) (s a v : Nat) :
    put_le16 fl s a v s a = v % 256 := by
  simp [put_le16, setByte]

/-- The high byte stored by `put_le16`. -/
theorem put_le16_hi (fl : Flash) (s a v : Nat) :
    put_le16 fl s a v s (a + 1) = v / 256 := by
  simp [put_le16, setByte]

/-- Reading back the word just stored by `put_le16`. -/
theorem le16_put_le16_same (fl : Flash) (s a v : Nat) :
    le16 (put_le16 fl s a v) s a = v := by
  unfold le16
  rw [put_le16_lo, put_le16_hi]
  omega

/-- A word at distance at least two bytes from a `put_le16` is
unchanged. -/
theorem le16_put_le16_far (fl : Flash) (s a v b : Nat)
    (h : a + 2 ≤ b ∨ b + 2 ≤ a) :
    le16 (put_le16 fl s a v) s b = le16 fl s b := by
  unfold le16
  rw [put_le16_outside, put_le16_outside] <;> right <;> omega

/-- `put_le16` of a 16-bit value preserves well-formedness. -/
theorem flashWF_put_le16 {fl : Flash} (h : FlashWF fl) (s a v : Nat)
    (hv : v < 65536) : FlashWF (put_le16 fl s a v) := by
  intro s2 a2
  simp only [put_le16, setByte]
  split_ifs
  · omega
  · omega
  · exact h s2 a2

/-- A word read from well-formed flash fits in 16 bits. -/
theorem le16_lt_of_wf {fl : Flash} (h : FlashWF fl) (s a : Nat) :
    le16 fl s a < 65536 := by
  have h1 := h s a
  have h2 := h s (a + 1)
  unfold le16
  omega

/-- `getD` of a list of bytes is a byte. -/
theorem getD_lt_of_bytes (data : List Nat) (hd : ∀ b ∈ data, b < 256)
    (k : Nat) : data.getD k 0 < 256 := by
  by_cases hk : k < data.length
  · rw [List.getD_eq_getElem data 0 hk]
    exact hd _ (List.getElem_mem hk)
  · rw [List.getD_eq_default data 0 (by omega)]
    omega

/-- A data word assembled from bytes fits in 16 bits. -/
theorem dataWord_lt (data : List Nat) (hd : ∀ b ∈ data, b < 256)
    (j : Nat) : dataWord data j < 65536 := by
  have h1 := getD_lt_of_bytes data hd (2 * j)
  have h2 := getD_lt_of_bytes data hd (2 * j + 1)
  unfold dataWord
  omega

/-- The abort condition of one iteration of the write loop, for data
word `v` over current flash word `v2`: the (C logical-not) test
`v & !v2` or the single-write check compiled under
`#ifndef AP_FLASHSTORAGE_MULTI_WRITE`. -/
def panicCond (v v2 : Nat) : Prop :=
  (v &&& (if v2 = 0 then 1 else 0)) ≠ 0 ∨ (v ≠ v2 ∧ v ≠ 0xFFFF ∧ v2 ≠ 0xFFFF)

instance (v v2 : Nat) : Decidable (panicCond v v2) := by
  unfold panicCond; infer_instance

/-- One unfolding of the write loop: the two in-loop aborts together
fire exactly when `panicCond` holds for the current word, otherwise the
word is ANDed in and the loop continues. -/
theorem write_loop_succ (s offset : Nat) (data : List Nat) (fl : Flash)
    (i n : Nat) :
    write_loop s offset data fl i (n + 1) =
      if panicCond (dataWord data i) (le16 fl s (offset + 2 * i))
      then .fatal fl
      else write_loop s offset data
        (put_le16 fl s (offset + 2 * i)
          (le16 fl s (offset + 2 * i) &&& dataWord data i)) (i + 1) n := by
  simp only [write_loop, panicCond]
  by_cases hc1 :
      (dataWord data i &&& (if le16 fl s (offset + 2 * i) = 0 then 1 else 0)) ≠ 0
  · rw [if_pos hc1, if_pos (Or.inl hc1)]
  · rw [if_neg hc1]
    by_cases hc2 : dataWord data i ≠ le16 fl s (offset + 2 * i) ∧
        dataWord data i ≠ 0xFFFF ∧ le16 fl s (offset + 2 * i) ≠ 0xFFFF
    · rw [if_pos hc2, if_pos (Or.inr hc2)]
    · rw [if_neg hc2, if_neg (by tauto)]

/-- If some word of the requested range satisfies the abort condition
with respect to the flash state at entry, the write loop aborts
fatally. -/
theorem write_loop_fatal_of_cond (s offset : Nat) (data : List Nat) :
    ∀ (n : Nat) (fl : Flash) (i j : Nat), i ≤ j → j < i + n →
      panicCond (dataWord data j) (le16 fl s (offset + 2 * j)) →
      (write_loop s offset data fl i n).isFatal = true := by
  intro n
  induction n with
  | zero => intro fl i j h1 h2 _; omega
  | succ n ih =>
    intro fl i j h1 h2 hcond
    rw [write_loop_succ]
    split_ifs with hc
    · rfl
    · have hji : j ≠ i := fun e => hc (e ▸ hcond)
      refine ih _ (i + 1) j (by omega) (by omega) ?_
      rwa [le16_put_le16_far _ _ _ _ _ (by omega)]

/-- Full functional description of a successful run of the write loop:
the flash stays well formed, every processed word becomes the bitwise
AND of its previous value and the corresponding data word, and every
byte outside the processed range (or in the other sector) is
untouched. -/
theorem write_loop_ok_spec (s offset : Nat) (data : List Nat) :
    ∀ (n : Nat) (fl : Flash) (i : Nat) (r : Bool) (fl2 : Flash),
      FlashWF fl →
      write_loop s offset data fl i n = .ok r fl2 →
      FlashWF fl2 ∧
      (∀ j, i ≤ j → j < i + n →
        le16 fl2 s (offset + 2 * j) =
          le16 fl s (offset + 2 * j) &&& dataWord data j) ∧
      (∀ s2 a, s2 ≠ s ∨ a < offset + 2 * i ∨ offset + 2 * (i + n) ≤ a →
        fl2 s2 a = fl s2 a) := by
  intro n
  induction n with
  | zero =>
    intro fl i r fl2 hwf h
    simp only [write_loop] at h
    cases h
    refine ⟨hwf, ?_, ?_⟩
    · intro j h1 h2; omega
    · intro s2 a _; rfl
  | succ n ih =>
    intro fl i r fl2 hwf h
    rw [write_loop_succ] at h
    by_cases hc : panicCond (dataWord data i) (le16 fl s (offset + 2 * i))
    · rw [if_pos hc] at h
      exact FlashResult.noConfusion h
    · rw [if_neg hc] at h
      have hv2 : le16 fl s (offset + 2 * i) < 65536 := le16_lt_of_wf hwf s _
      have hw : le16 fl s (offset + 2 * i) &&& dataWord data i < 65536 :=
        lt_of_le_of_lt Nat.and_le_left hv2
      obtain ⟨hwf2, hwords, hout⟩ :=
        ih (put_le16 fl s (offset + 2 * i)
              (le16 fl s (offset + 2 * i) &&& dataWord data i))
          (i + 1) r fl2 (flashWF_put_le16 hwf _ _ _ hw) h
      refine ⟨hwf2, ?_, ?_⟩
      · intro j h1 h2
        by_cases hji : j = i
        · subst hji
          have e1 : fl2 s (offset + 2 * j) =
              put_le16 fl s (offset + 2 * j)
                (le16 fl s (offset + 2 * j) &&& dataWord data j) s
                (offset + 2 * j) :=
            hout s _ (by omega)
          have e2 : fl2 s (offset + 2 * j + 1) =
              put_le16 fl s (offset + 2 * j)
                (le16 fl s (offset + 2 * j) &&& dataWord data j) s
                (offset + 2 * j + 1) :=
            hout s _ (by omega)
          calc le16 fl2 s (offset + 2 * j)
              = le16 (put_le16 fl s (offset + 2 * j)
                  (le16 fl s (offset + 2 * j) &&& dataWord data j)) s
                  (offset + 2 * j) := by
                unfold le16
                rw [e1, e2]
                rfl
            _ = le16 fl s (offset + 2 * j) &&& dataWord data j :=
                le16_put_le16_same _ _ _ _
        · rw [hwords j (by omega) (by omega),
            le16_put_le16_far _ _ _ _ _ (by omega)]
      · intro s2 a ha
        rw [hout s2 a (by rcases ha with h | h | h <;> omega),
          put_le16_outside _ _ _ _ _ _
            (by rcases ha with h | h | h
                · exact Or.inl h
                · right; omega
                · right; omega)]

/-- Counterexample to C5 as stated: at the representable machine input
`sector = 0`, `offset = 0xFFFFFFFE`, `length = 2` the mathematical sum
`offset + length = 2^32` exceeds `flash_sector_size`, yet neither
`flash_write` nor `flash_read` aborts: the C `uint32_t` sum wraps to
`0`, the bounds check passes, and both primitives silently continue. -/
theorem claim_C5_wrap_counterexample :
    4294967294 < 4294967296 ∧ 2 < 65536 ∧
    4294967294 + 2 > flash_sector_size ∧
    (flash_write erasedFlash 0 4294967294 [0, 0] 2).isFatal = false ∧
    (flash_read erasedFlash 0 4294967294 2).isFatal = false := by
  refine ⟨by norm_num, by norm_num, by norm_num [flash_sector_size], ?_, ?_⟩
  · rfl
  · rfl

/-- Claim C5 as amended: `flash_write` and `flash_read` both abort
fatally when `sector > 1` or when the wrapped `uint32_t` sum
`(offset + length) % 2^32` exceeds `flash_sector_size` (so a sum of
`2^32` or more escapes the check); `flash_write` additionally aborts
fatally when `offset` or `length` is odd. -/
theorem claim_C5_amended_fatal_on_bounds_and_alignment (fl : Flash)
    (sector offset : Nat) (data : List Nat) (length : Nat) :
    ((sector > 1 ∨ (offset + length) % 4294967296 > flash_sector_size) →
      (flash_write fl sector offset data length).isFatal = true ∧
      (flash_read fl sector offset length).isFatal = true) ∧
    ((offset % 2 = 1 ∨ length % 2 = 1) →
      (flash_write fl sector offset data length).isFatal = true) := by
  constructor
  · intro h
    constructor
    · unfold flash_write
      split_ifs with h1 h2 h3 <;> first | rfl | (exfalso; omega)
    · unfold flash_read
      split_ifs with h1 h2 <;> first | rfl | (exfalso; omega)
  · intro h
    unfold flash_write
    split_ifs with h1 h2 <;> rfl

/-- Witness for the amended C5 at concrete inputs: sector 2 aborts both
primitives, an in-bounds overlong read aborts, and an odd offset aborts
`flash_write`. -/
theorem claim_C5_amended_fatal_on_bounds_and_alignment_witness :
    ((flash_write erasedFlash 2 0 [] 0).isFatal = true ∧
      (flash_read erasedFlash 2 0 0).isFatal = true) ∧
    ((flash_write erasedFlash 0 0 [] 40000).isFatal = true ∧
      (flash_read erasedFlash 0 0 40000).isFatal = true) ∧
    (flash_write erasedFlash 0 1 [] 2).isFatal = true :=
  ⟨(claim_C5_amended_fatal_on_bounds_and_alignment erasedFlash 2 0 [] 0).1
      (Or.inl (by decide)),
   (claim_C5_amended_fatal_on_bounds_and_alignment erasedFlash 0 0 [] 40000).1
      (Or.inr (by decide)),
   (claim_C5_amended_fatal_on_bounds_and_alignment erasedFlash 0 1 [] 2).2
      (Or.inl (by decide))⟩

/-- Claim C6: for sector 0 or 1, `flash_erase` returns `true` and sets
all `flash_sector_size` bytes of that sector to `0xFF`, leaving the
other sector and out-of-range addresses untouched; for `sector > 1` it
aborts fatally. -/
theorem claim_C6_erase_resets_sector (fl : Flash) (sector : Nat) :
    (sector ≤ 1 →
      (flash_erase fl sector).isFatal = false ∧
      (flash_erase fl sector).retD false = true ∧
      (∀ a, a < flash_sector_size →
        (flash_erase fl sector).state sector a = 0xFF) ∧
      (∀ s a, s ≠ sector ∨ flash_sector_size ≤ a →
        (flash_erase fl sector).state s a = fl s a)) ∧
    (1 < sector → (flash_erase fl sector).isFatal = true) := by
  constructor
  · intro h
    have hns : ¬ sector > 1 := by omega
    refine ⟨?_, ?_, ?_, ?_⟩
    · simp [flash_erase, hns, FlashResult.isFatal]
    · simp [flash_erase, hns, FlashResult.retD]
    · intro a ha
      simp [flash_erase, hns, FlashResult.state, ha]
    · intro s a hsa
      simp only [flash_erase, if_neg hns, FlashResult.state]
      rcases hsa with hs | ha
      · simp [hs]
      · have : ¬ (s = sector ∧ a < flash_sector_size) := by
          rintro ⟨-, h2⟩; omega
        simp [this]
  · intro h
    simp [flash_erase, h, FlashResult.isFatal]

/-- Witness for C6 at sector 0 on erased flash: in-range byte 5 is
`0xFF` afterwards and the sibling sector is untouched. -/
theorem claim_C6_erase_resets_sector_witness :
    (flash_erase erasedFlash 0).retD false = true ∧
    (flash_erase erasedFlash 0).state 0 5 = 0xFF ∧
    (flash_erase erasedFlash 0).state 1 5 = erasedFlash 1 5 :=
  ⟨((claim_C6_erase_resets_sector erasedFlash 0).1 (by decide)).2.1,
   ((claim_C6_erase_resets_sector erasedFlash 0).1 (by decide)).2.2.1 5 (by decide),
   ((claim_C6_erase_resets_sector erasedFlash 0).1 (by decide)).2.2.2 1 5
      (Or.inl (by decide))⟩

/-- Claim C8: each of the three flash primitives either aborts fatally
or returns `true`; the boolean result never carries `false`. -/
theorem claim_C8_primitives_always_return_true (fl : Flash) (sector offset : Nat)
    (data : List Nat) (length : Nat) :
    ((flash_write fl sector offset data length).isFatal = true ∨
      (flash_write fl sector offset data length).retD false = true) ∧
    ((flash_read fl sector offset length).isFatal = true ∨
      ((flash_read fl sector offset length).retD (false, [])).1 = true) ∧
    ((flash_erase fl sector).isFatal = true ∨
      (flash_erase fl sector).retD false = true) := by
  refine ⟨?_, ?_, ?_⟩
  · unfold flash_write
    split_ifs <;> first | (left; rfl) | exact write_loop_ret_true _ _ _ _ _ _
  · unfold flash_read
    split_ifs <;> first | (left; rfl) | (right; rfl)
  · unfold flash_erase
    split_ifs <;> first | (left; rfl) | (right; rfl)

/-- Claim C3: `flash_write` aborts fatally whenever some 16-bit word of
the target range currently holds a value different from the
corresponding data word while neither value is `0xFFFF` (the erased
state), so a physical location is never rewritten between erasures. -/
theorem claim_C3_single_write_between_erasures (fl : Flash)
    (sector offset : Nat) (data : List Nat) (length : Nat) (j : Nat)
    (hj : j < length / 2)
    (hne : dataWord data j ≠ le16 fl sector (offset + 2 * j))
    (hv : dataWord data j ≠ 0xFFFF)
    (hv2 : le16 fl sector (offset + 2 * j) ≠ 0xFFFF) :
    (flash_write fl sector offset data length).isFatal = true := by
  unfold flash_write
  split_ifs with h1 h2 h3
  · rfl
  · rfl
  · rfl
  · exact write_loop_fatal_of_cond sector offset data (length / 2) fl 0 j
      (by omega) (by omega) (Or.inr ⟨hne, hv, hv2⟩)

/-- A concrete flash whose sector 0 begins with the little-endian word
`0x0001` and is erased elsewhere, used in witnesses. -/
def flashWord1 : Flash :=
  fun s a => if s = 0 ∧ a = 0 then 1 else if s = 0 ∧ a = 1 then 0 else 0xFF

/-- The erased flash is well formed. -/
theorem erasedFlash_wf : FlashWF erasedFlash := by
  intro s a
  norm_num [erasedFlash]

/-- The witness flash `flashWord1` is well formed. -/
theorem flashWord1_wf : FlashWF flashWord1 := by
  intro s a
  unfold flashWord1
  split_ifs <;> norm_num

/-- Witness for C3: writing the word `0x0002` over the word `0x0001`
aborts fatally. -/
theorem claim_C3_single_write_between_erasures_witness :
    (flash_write flashWord1 0 0 [2, 0] 2).isFatal = true :=
  claim_C3_single_write_between_erasures flashWord1 0 0 [2, 0] 2 0
    (by decide) (by decide) (by decide) (by decide)

/-- Claim C4: a `flash_write` that returns normally has replaced every
16-bit word of the written range by the bitwise AND of its previous
flash content and the corresponding data word, and has left every byte
outside the written range (and the whole other sector) unchanged. -/
theorem claim_C4_write_only_clears_bits (fl : Flash) (sector offset : Nat)
    (data : List Nat) (length : Nat) (hwf : FlashWF fl) (r : Bool)
    (fl2 : Flash)
    (h : flash_write fl sector offset data length = .ok r fl2) :
    (∀ j, j < length / 2 →
      le16 fl2 sector (offset + 2 * j) =
        le16 fl sector (offset + 2 * j) &&& dataWord data j) ∧
    (∀ s2 a, s2 ≠ sector ∨ a < offset ∨ offset + length ≤ a →
      fl2 s2 a = fl s2 a) := by
  unfold flash_write at h
  split_ifs at h with h1 h2 h3
  obtain ⟨-, hwords, hout⟩ := write_loop_ok_spec sector offset data
    (length / 2) fl 0 r fl2 hwf h
  have hlen : length % 2 = 0 := by
    rcases Nat.mod_two_eq_zero_or_one length with he | he
    · exact he
    · exact absurd (Or.inr he) h3
  refine ⟨fun j hj => hwords j (by omega) (by omega), fun s2 a ha => ?_⟩
  refine hout s2 a ?_
  rcases ha with h | h | h
  · exact Or.inl h
  · right; left; omega
  · right; right; omega

/-- Witness for C4: writing the word `0x1234` over erased flash leaves
the AND of `0xFFFF` and `0x1234`, and leaves the sibling sector
untouched. -/
theorem claim_C4_write_only_clears_bits_witness :
    le16 ((flash_write erasedFlash 0 0 [52, 18] 2).state) 0 0 =
      le16 erasedFlash 0 0 &&& dataWord [52, 18] 0 ∧
    (flash_write erasedFlash 0 0 [52, 18] 2).state 1 7 = erasedFlash 1 7 :=
  ⟨(claim_C4_write_only_clears_bits erasedFlash 0 0 [52, 18] 2
      erasedFlash_wf true
      ((flash_write erasedFlash 0 0 [52, 18] 2).state) (by rfl)).1 0 (by decide),
   (claim_C4_write_only_clears_bits erasedFlash 0 0 [52, 18] 2
      erasedFlash_wf true
      ((flash_write erasedFlash 0 0 [52, 18] 2).state) (by rfl)).2 1 7
      (Or.inl (by decide))⟩

/-- Two flash states agreeing on both bytes of a word agree on the
word. -/
theorem le16_congr_bytes (f g : Flash) (s a : Nat)
    (h1 : f s a = g s a) (h2 : f s (a + 1) = g s (a + 1)) :
    le16 f s a = le16 g s a := by
  unfold le16
  rw [h1, h2]

/-- Partial effect of an aborting write loop: if the first `k` words of
the range pass the checks and word `i + k` trips them, the loop aborts,
having already ANDed the first `k` words into the sector; bytes before
the range or from word `i + k` on are untouched at the abort. -/
theorem write_loop_fatal_partial (s offset : Nat) (data : List Nat) :
    ∀ (n : Nat) (fl : Flash) (i k : Nat),
      FlashWF fl → k < n →
      (∀ j, j < k →
        ¬ panicCond (dataWord data (i + j)) (le16 fl s (offset + 2 * (i + j)))) →
      panicCond (dataWord data (i + k)) (le16 fl s (offset + 2 * (i + k))) →
      (write_loop s offset data fl i n).isFatal = true ∧
      (∀ j, j < k →
        le16 ((write_loop s offset data fl i n).state) s (offset + 2 * (i + j)) =
          le16 fl s (offset + 2 * (i + j)) &&& dataWord data (i + j)) ∧
      (∀ s2 a, s2 ≠ s ∨ a < offset + 2 * i ∨ offset + 2 * (i + k) ≤ a →
        (write_loop s offset data fl i n).state s2 a = fl s2 a) := by
  intro n
  induction n with
  | zero => intro fl i k _ hk _ _; omega
  | succ n ih =>
    intro fl i k hwf hk hpre hbad
    match k with
    | 0 =>
      have hbad0 : panicCond (dataWord data i) (le16 fl s (offset + 2 * i)) := by
        have e : i + 0 = i := by omega
        rwa [e] at hbad
      rw [write_loop_succ, if_pos hbad0]
      exact ⟨rfl, fun j hj => by omega, fun s2 a _ => rfl⟩
    | k + 1 =>
      have hok : ¬ panicCond (dataWord data i) (le16 fl s (offset + 2 * i)) := by
        have := hpre 0 (by omega)
        rwa [Nat.add_zero] at this
      rw [write_loop_succ, if_neg hok]
      have hv2 : le16 fl s (offset + 2 * i) < 65536 := le16_lt_of_wf hwf s _
      have hw : le16 fl s (offset + 2 * i) &&& dataWord data i < 65536 :=
        lt_of_le_of_lt Nat.and_le_left hv2
      have hfar : ∀ j, le16 (put_le16 fl s (offset + 2 * i)
          (le16 fl s (offset + 2 * i) &&& dataWord data i)) s
            (offset + 2 * (i + 1 + j)) = le16 fl s (offset + 2 * (i + 1 + j)) :=
        fun j => le16_put_le16_far _ _ _ _ _ (by omega)
      obtain ⟨hfat, hwords, hout⟩ := ih
        (put_le16 fl s (offset + 2 * i)
          (le16 fl s (offset + 2 * i) &&& dataWord data i))
        (i + 1) k (flashWF_put_le16 hwf _ _ _ hw) (by omega)
        (fun j hj => by
          rw [hfar j]
          have e : i + 1 + j = i + (j + 1) := by omega
          rw [e]
          exact hpre (j + 1) (by omega))
        (by
          rw [hfar k]
          have e : i + 1 + k = i + (k + 1) := by omega
          rw [e]
          exact hbad)
      refine ⟨hfat, ?_, ?_⟩
      · intro j hj
        match j with
        | 0 =>
          simp only [Nat.add_zero]
          rw [le16_congr_bytes _ _ s (offset + 2 * i)
              (hout s (offset + 2 * i) (by omega))
              (hout s (offset + 2 * i + 1) (by omega)),
            le16_put_le16_same]
        | j + 1 =>
          have e : i + (j + 1) = i + 1 + j := by omega
          rw [e, hwords j (by omega), hfar j]
      · intro s2 a ha
        rw [hout s2 a (by rcases ha with h | h | h <;> omega)]
        exact put_le16_outside _ _ _ _ _ _
          (by rcases ha with h | h | h
              · exact Or.inl h
              · right; omega
              · right; omega)

/-- Claim C9: `flash_write` is not atomic on error: when the per-word
check first trips at word index `i > 0` of an otherwise valid request,
the call aborts fatally with the words `0` through `i - 1` already
ANDed into the sector and no rollback: only bytes from word `i` on (or
outside the range, or in the other sector) still hold their old
values. -/
theorem claim_C9_no_rollback_on_abort (fl : Flash) (sector offset : Nat)
    (data : List Nat) (length : Nat) (i : Nat) (hwf : FlashWF fl)
    (hsec : sector ≤ 1) (hb : offset + length ≤ flash_sector_size)
    (ho : offset % 2 = 0) (hl : length % 2 = 0) (_hi0 : 0 < i)
    (hi : i < length / 2)
    (hok : ∀ j, j < i →
      ¬ panicCond (dataWord data j) (le16 fl sector (offset + 2 * j)))
    (hbad : panicCond (dataWord data i) (le16 fl sector (offset + 2 * i))) :
    (flash_write fl sector offset data length).isFatal = true ∧
    (∀ j, j < i →
      le16 ((flash_write fl sector offset data length).state) sector
          (offset + 2 * j) =
        le16 fl sector (offset + 2 * j) &&& dataWord data j) ∧
    (∀ s2 a, s2 ≠ sector ∨ a < offset ∨ offset + 2 * i ≤ a →
      (flash_write fl sector offset data length).state s2 a = fl s2 a) := by
  have hW : flash_write fl sector offset data length =
      write_loop sector offset data fl 0 (length / 2) := by
    unfold flash_write
    rw [if_neg (by omega), if_neg (by omega), if_neg (by omega)]
  obtain ⟨hfat, hwords, hout⟩ := write_loop_fatal_partial sector offset data
    (length / 2) fl 0 i hwf hi
    (fun j hj => by
      have e : 0 + j = j := by omega
      rw [e]
      exact hok j hj)
    (by
      have e : 0 + i = i := by omega
      rw [e]
      exact hbad)
  rw [hW]
  refine ⟨hfat, ?_, ?_⟩
  · intro j hj
    have := hwords j hj
    have e : 0 + j = j := by omega
    rwa [e] at this
  · intro s2 a ha
    refine hout s2 a ?_
    rcases ha with h | h | h
    · exact Or.inl h
    · right; left; omega
    · right; right; omega

/-- A concrete flash whose sector 0 holds the erased word `0xFFFF` at
address 0 and the word `0x0001` at address 2, used in the C9 witness. -/
def flashC9 : Flash :=
  fun s a => if s = 0 ∧ a = 2 then 1 else if s = 0 ∧ a = 3 then 0 else 0xFF

/-- The C9 witness flash is well formed. -/
theorem flashC9_wf : FlashWF flashC9 := by
  intro s a
  unfold flashC9
  split_ifs <;> norm_num

/-- Witness for C9: writing the words `0x0002, 0x0002` trips the check
at word index 1, and at the abort word 0 has already become
`0xFFFF AND 0x0002`. -/
theorem claim_C9_no_rollback_on_abort_witness :
    (flash_write flashC9 0 0 [2, 0, 2, 0] 4).isFatal = true ∧
    le16 ((flash_write flashC9 0 0 [2, 0, 2, 0] 4).state) 0 0 =
      le16 flashC9 0 0 &&& dataWord [2, 0, 2, 0] 0 ∧
    (flash_write flashC9 0 0 [2, 0, 2, 0] 4).state 0 2 = flashC9 0 2 :=
  ⟨(claim_C9_no_rollback_on_abort flashC9 0 0 [2, 0, 2, 0] 4 1 flashC9_wf
      (by decide) (by norm_num [flash_sector_size]) (by decide) (by decide)
      (by decide) (by decide)
      (fun j hj => by
        interval_cases j
        decide)
      (by decide)).1,
   (claim_C9_no_rollback_on_abort flashC9 0 0 [2, 0, 2, 0] 4 1 flashC9_wf
      (by decide) (by norm_num [flash_sector_size]) (by decide) (by decide)
      (by decide) (by decide)
      (fun j hj => by
        interval_cases j
        decide)
      (by decide)).2.1 0 (by decide),
   (claim_C9_no_rollback_on_abort flashC9 0 0 [2, 0, 2, 0] 4 1 flashC9_wf
      (by decide) (by norm_num [flash_sector_size]) (by decide) (by decide)
      (by decide) (by decide)
      (fun j hj => by
        interval_cases j
        decide)
      (by decide)).2.2 0 2 (by
        right; right
        decide)⟩

/-- A concrete flash whose sector 0 begins with the little-endian word
`0x00FE` and is erased elsewhere, used in the C2 counterexample. -/
def flashC2 : Flash :=
  fun s a => if s = 0 ∧ a = 0 then 0xFE else if s = 0 ∧ a = 1 then 0 else 0xFF

/-- Counterexample to C2 as stated: the data word `0xFFFF` has bit 0
set while the current flash word `0x00FE` has bit 0 clear, yet
`flash_write` does not abort.  The C test `v & !v2` uses the logical
not, so it only fires when the whole current word is zero and the data
word is odd, and the single-write check skips `v == 0xFFFF`. -/
theorem claim_C2_counterexample :
    (dataWord [255, 255] 0).testBit 0 = true ∧
    (le16 flashC2 0 0).testBit 0 = false ∧
    (flash_write flashC2 0 0 [255, 255] 2).isFatal = false := by
  decide

/-- Claim C2 as amended: if some 16-bit data word in range, other than
`0xFFFF`, has a 1 bit where the current flash word has a 0 bit, the
write aborts fatally; and whenever such a call returns normally
(possible only for the data word `0xFFFF`), that flash word is left
unchanged — the content is never silently corrupted. -/
theorem claim_C2_amended_nor_violation_aborts (fl : Flash)
    (sector offset : Nat) (data : List Nat) (length : Nat) (j : Nat)
    (hwf : FlashWF fl) (hdata : ∀ b ∈ data, b < 256) (hj : j < length / 2)
    (hbit : dataWord data j &&& le16 fl sector (offset + 2 * j) ≠
      dataWord data j) :
    (dataWord data j ≠ 0xFFFF →
      (flash_write fl sector offset data length).isFatal = true) ∧
    (∀ r fl2, flash_write fl sector offset data length = .ok r fl2 →
      le16 fl2 sector (offset + 2 * j) = le16 fl sector (offset + 2 * j)) := by
  have hvlt : dataWord data j < 65536 := dataWord_lt data hdata j
  have hcond : dataWord data j ≠ 0xFFFF →
      panicCond (dataWord data j) (le16 fl sector (offset + 2 * j)) := by
    intro hne
    refine Or.inr ⟨?_, hne, ?_⟩
    · intro he
      rw [he] at hbit
      exact hbit (Nat.and_self _)
    · intro he
      rw [he] at hbit
      have h65 : (65535 : Nat) = 2 ^ 16 - 1 := by norm_num
      rw [h65, Nat.and_pow_two_sub_one_eq_mod, Nat.mod_eq_of_lt hvlt] at hbit
      exact hbit rfl
  have hfatal : dataWord data j ≠ 0xFFFF →
      (flash_write fl sector offset data length).isFatal = true := by
    intro hne
    unfold flash_write
    split_ifs with h1 h2 h3
    · rfl
    · rfl
    · rfl
    · exact write_loop_fatal_of_cond sector offset data (length / 2) fl 0 j
        (by omega) (by omega) (hcond hne)
  refine ⟨hfatal, ?_⟩
  intro r fl2 h
  have hv : dataWord data j = 0xFFFF := by
    by_contra hne
    have := hfatal hne
    rw [h] at this
    exact Bool.noConfusion this
  unfold flash_write at h
  split_ifs at h with h1 h2 h3
  obtain ⟨-, hwords, -⟩ := write_loop_ok_spec sector offset data
    (length / 2) fl 0 r fl2 hwf h
  rw [hwords j (by omega) (by omega), hv]
  have hv2lt : le16 fl sector (offset + 2 * j) < 65536 := le16_lt_of_wf hwf sector _
  have h65 : (65535 : Nat) = 2 ^ 16 - 1 := by norm_num
  rw [show (0xFFFF : Nat) = 2 ^ 16 - 1 by norm_num,
    Nat.and_pow_two_sub_one_eq_mod, Nat.mod_eq_of_lt hv2lt]

/-- Witness for the amended C2: writing the word `0x0004` over the word
`0x0001` is a NOR violation with data word not `0xFFFF`, and the call
aborts fatally. -/
theorem claim_C2_amended_nor_violation_aborts_witness :
    (flash_write flashWord1 0 0 [4, 0] 2).isFatal = true :=
  (claim_C2_amended_nor_violation_aborts flashWord1 0 0 [4, 0] 2 0
    flashWord1_wf (by decide) (by decide) (by decide)).1 (by decide)

/-- The write loop cannot abort while every word of the range still
holds the erased pattern `0xFFFF`: it returns normally. -/
theorem write_loop_ok_of_erased (s offset : Nat) (data : List Nat) :
    ∀ (n : Nat) (fl : Flash) (i : Nat),
      (∀ j, i ≤ j → j < i + n → le16 fl s (offset + 2 * j) = 0xFFFF) →
      ∃ fl2, write_loop s offset data fl i n = .ok true fl2 := by
  intro n
  induction n with
  | zero => intro fl i _; exact ⟨fl, rfl⟩
  | succ n ih =>
    intro fl i he
    have hv2 : le16 fl s (offset + 2 * i) = 0xFFFF := he i (by omega) (by omega)
    have hnc : ¬ panicCond (dataWord data i) (le16 fl s (offset + 2 * i)) := by
      rw [hv2]
      rintro (hc | ⟨-, -, hc⟩)
      · rw [if_neg (by norm_num), Nat.and_zero] at hc
        exact hc rfl
      · exact hc rfl
    rw [write_loop_succ, if_neg hnc]
    refine ih _ (i + 1) fun j h1 h2 => ?_
    rw [le16_put_le16_far _ _ _ _ _ (by omega)]
    exact he j (by omega) (by omega)

/-- Claim C7: round-trip through erased flash.  For a valid sector, an
in-bounds even-aligned range and byte-valued data of the right length,
`flash_erase` then `flash_write` succeed, and `flash_read` of the range
returns exactly the written bytes. -/
theorem claim_C7_erase_write_read_roundtrip (fl : Flash)
    (sector offset : Nat) (data : List Nat) (length : Nat)
    (hwf : FlashWF fl) (hsec : sector ≤ 1) (hlen : data.length = length)
    (hb : offset + length ≤ flash_sector_size) (ho : offset % 2 = 0)
    (hl : length % 2 = 0) (hdata : ∀ b ∈ data, b < 256) :
    flash_erase fl sector = .ok true ((flash_erase fl sector).state) ∧
    flash_write ((flash_erase fl sector).state) sector offset data length =
      .ok true ((flash_write ((flash_erase fl sector).state) sector offset
        data length).state) ∧
    flash_read ((flash_write ((flash_erase fl sector).state) sector offset
        data length).state) sector offset length =
      .ok (true, data) ((flash_write ((flash_erase fl sector).state) sector
        offset data length).state) := by
  have hsec2 : ¬ sector > 1 := by omega
  have hE : (flash_erase fl sector).state =
      fun s a => if s = sector ∧ a < flash_sector_size then 0xFF else fl s a := by
    unfold flash_erase
    rw [if_neg hsec2]
    rfl
  have hEwf : FlashWF ((flash_erase fl sector).state) := by
    rw [hE]
    intro s a
    dsimp only
    split_ifs
    · norm_num
    · exact hwf s a
  have hEword : ∀ j, j < length / 2 →
      le16 ((flash_erase fl sector).state) sector (offset + 2 * j) = 0xFFFF := by
    intro j hj
    rw [hE]
    unfold le16
    dsimp only
    rw [if_pos ⟨rfl, by omega⟩, if_pos ⟨rfl, by omega⟩]
  obtain ⟨fl2, hW⟩ := write_loop_ok_of_erased sector offset data (length / 2)
    ((flash_erase fl sector).state) 0 (fun j h1 h2 => hEword j (by omega))
  have hFW : flash_write ((flash_erase fl sector).state) sector offset data
      length = .ok true fl2 := by
    unfold flash_write
    rw [if_neg hsec2, if_neg (by omega), if_neg (by omega)]
    exact hW
  have hstate : (flash_write ((flash_erase fl sector).state) sector offset
      data length).state = fl2 := by
    rw [hFW]
    rfl
  obtain ⟨hwf2, hwords, -⟩ := write_loop_ok_spec sector offset data
    (length / 2) ((flash_erase fl sector).state) 0 true fl2 hEwf hW
  have hword2 : ∀ j, j < length / 2 →
      le16 fl2 sector (offset + 2 * j) = dataWord data j := by
    intro j hj
    rw [hwords j (by omega) (by omega), hEword j hj,
      Nat.and_comm, show (0xFFFF : Nat) = 2 ^ 16 - 1 by norm_num,
      Nat.and_pow_two_sub_one_eq_mod,
      Nat.mod_eq_of_lt (dataWord_lt data hdata j)]
  have hbyte : ∀ j, j < length → fl2 sector (offset + j) = data.getD j 0 := by
    intro j hjl
    have hk : j / 2 < length / 2 := by omega
    have hword := hword2 (j / 2) hk
    unfold le16 dataWord at hword
    have b1 : fl2 sector (offset + 2 * (j / 2)) < 256 := hwf2 _ _
    have b2 : fl2 sector (offset + 2 * (j / 2) + 1) < 256 := hwf2 _ _
    have d1 : data.getD (2 * (j / 2)) 0 < 256 := getD_lt_of_bytes data hdata _
    have d2 : data.getD (2 * (j / 2) + 1) 0 < 256 := getD_lt_of_bytes data hdata _
    rcases Nat.mod_two_eq_zero_or_one j with hpar | hpar
    · have he : j = 2 * (j / 2) := by omega
      rw [he]
      omega
    · have he : j = 2 * (j / 2) + 1 := by omega
      rw [he]
      have he2 : offset + (2 * (j / 2) + 1) = offset + 2 * (j / 2) + 1 := by omega
      rw [he2]
      omega
  have hmap : (List.range length).map (fun j => fl2 sector (offset + j)) = data := by
    refine List.ext_getElem (by simp [hlen]) ?_
    intro i h1 h2
    have hi : i < length := by simpa using h1
    rw [List.getElem_map]
    simp only [List.getElem_range]
    rw [hbyte i hi, List.getD_eq_getElem data 0 h2]
  refine ⟨?_, ?_, ?_⟩
  · unfold flash_erase
    rw [if_neg hsec2]
    rfl
  · rw [hstate]
    exact hFW
  · rw [hstate]
    unfold flash_read
    rw [if_neg hsec2, if_neg (by omega), hmap]

/-- Witness for C7: erase sector 0, write bytes `[7, 9]` at offset 2,
read them back. -/
theorem claim_C7_erase_write_read_roundtrip_witness :
    flash_read ((flash_write ((flash_erase erasedFlash 0).state) 0 2
        [7, 9] 2).state) 0 2 2 =
      .ok (true, [7, 9]) ((flash_write ((flash_erase erasedFlash 0).state) 0 2
        [7, 9] 2).state) :=
  (claim_C7_erase_write_read_roundtrip erasedFlash 0 2 [7, 9] 2
    erasedFlash_wf (by decide) (by decide) (by decide) (by decide) (by decide)
    (by decide)).2.2

/-- The logical image: a fixed-size byte array presented to callers. -/
abbrev Image := Nat → Nat

/-- Modelled from the spec: `AP_FlashStorage::storage_size`, the size
of the 64KiB logical image (the header defining it is not part of this
program's sources). -/
def storage_size : Nat := 64 * 1024

/-- `memcpy(&dst[off], data, data.length)` on a byte image. -/
def memcpyF (dst : Image) (off : Nat) (data : List Nat) : Image :=
  fun i => if off ≤ i ∧ i < off + data.length then data.getD (i - off) 0 else dst i

/-- Modelled from the spec: the persistent state of the AP_FlashStorage
engine (whose implementation is not among this program's sources),
abstracted to what the recovery scan reconstructs: the snapshot record
written at the last compaction, the list of records appended since
(offset and payload, in append order), and the write cursor in the
active sector. -/
structure Engine where
  snapshot : Image
  log : List (Nat × List Nat)
  cursor : Nat

/-- Modelled from the spec: the encoded frame of a record is
self-describing and even-aligned; its size is the payload length plus a
fixed header. -/
def frameSize (length : Nat) : Nat := 8 + length

/-- The bytes `[offset, offset + length)` of the logical image, as read
by the log writer when encoding a record. -/
def Engine.payload (buffer : Image) (offset length : Nat) : List Nat :=
  (List.range length).map (fun j => buffer (offset + j))

/-- Modelled from the spec: the recovery scan replays the active
sector, applying the snapshot record and then each appended record in
order, later records overwriting earlier ones byte-range-wise. -/
def Engine.replay (e : Engine) : Image :=
  e.log.foldl (fun img r => memcpyF img r.1 r.2) e.snapshot

/-- Modelled from the spec: `AP_FlashStorage::write(offset, length)`.
Zero-length writes are no-ops; if the encoded frame would overflow the
sector, the engine compacts (snapshotting the full logical image into
the spare sector and resetting the log) when the erase gate permits and
otherwise fails transiently; else the record is appended and the cursor
advances by the frame size. -/
def Engine.write (e : Engine) (buffer : Image) (offset length : Nat)
    (erase_ok : Bool) : Bool × Engine :=
  if length = 0 then (true, e)
  else if e.cursor + frameSize length > flash_sector_size then
    if erase_ok then
      (true, ⟨fun i => buffer i, [], frameSize storage_size⟩)
    else (false, e)
  else
    (true, ⟨e.snapshot, e.log ++ [(offset, Engine.payload buffer offset length)],
      e.cursor + frameSize length⟩)

/-- Modelled from the spec: `AP_FlashStorage::init()` reconstructs the
logical image by the recovery scan; on the states reachable here a
valid header exists, so it succeeds. -/
def Engine.init (e : Engine) : Bool × Image := (true, e.replay)

/-- Modelled from the spec: the engine state after the first `init()`
on two freshly erased sectors: an all-zero image, an empty log, and the
cursor just past the sector header. -/
def Engine.initial : Engine := ⟨fun _ => 0, [], 8⟩

/-- The in-memory state of the `FlashTest` harness: the reference copy
`mem_mirror`, the engine-owned logical image `mem_buffer`, and the
storage engine. -/
structure TestState where
  mirror : Image
  buffer : Image
  engine : Engine

/-- `FlashTest::write`, translated from the source: `memcpy` the data
into `mem_mirror` and `mem_buffer`, then call `storage.write`; the
failure message is printed only when `storage.write` returns `false`
and `erase_ok` is set.  The call to `storage.write` is abstracted as
the parameter `sw`, which receives the already-updated `mem_buffer`;
the second component of the result records whether the failure message
was printed. -/
def FlashTest.write (sw : Image → Nat → Nat → Bool × Engine) (st : TestState)
    (erase_ok : Bool) (offset : Nat) (data : List Nat) : TestState × Bool :=
  let mirror2 := memcpyF st.mirror offset data
  let buffer2 := memcpyF st.buffer offset data
  let r := sw buffer2 offset data.length
  (⟨mirror2, buffer2, r.2⟩, !r.1 && erase_ok)

/-- One harness write against the real engine, with the erase gate
permitting. -/
def stepWrite (st : TestState) (w : Nat × List Nat) : TestState :=
  (FlashTest.write (fun buf o l => st.engine.write buf o l true) st true w.1 w.2).1

/-- A sequence of harness writes against the engine. -/
def runWrites (st : TestState) (ws : List (Nat × List Nat)) : TestState :=
  ws.foldl stepWrite st

/-- The harness state after the first `init()`: zero image, zero
mirror, freshly initialized engine. -/
def initialTestState : TestState := ⟨fun _ => 0, fun _ => 0, Engine.initial⟩

/-- The harness invariant: the image the recovery scan would
reconstruct agrees with `mem_mirror`, and `mem_buffer` agrees with
`mem_mirror`. -/
def HarnessInv (st : TestState) : Prop :=
  (∀ i, st.engine.replay i = st.mirror i) ∧ (∀ i, st.buffer i = st.mirror i)

/-- `memcpyF` depends on the destination only pointwise. -/
theorem memcpyF_congr (d1 d2 : Image) (off : Nat) (data : List Nat)
    (h : ∀ i, d1 i = d2 i) (i : Nat) :
    memcpyF d1 off data i = memcpyF d2 off data i := by
  unfold memcpyF
  split_ifs
  · rfl
  · exact h i

/-- `memcpyF` of an empty payload changes nothing. -/
theorem memcpyF_nil (d : Image) (off : Nat) (data : List Nat)
    (h : data.length = 0) (i : Nat) : memcpyF d off data i = d i := by
  unfold memcpyF
  rw [if_neg (by omega)]

/-- In-range reads of a payload recover the image bytes. -/
theorem payload_getD (buffer : Image) (offset length k : Nat)
    (hk : k < length) :
    (Engine.payload buffer offset length).getD k 0 = buffer (offset + k) := by
  unfold Engine.payload
  rw [List.getD_eq_getElem _ 0 (by simp [hk]), List.getElem_map]
  congr 1
  simp

/-- The payload has the requested length. -/
theorem payload_length (buffer : Image) (offset length : Nat) :
    (Engine.payload buffer offset length).length = length := by
  unfold Engine.payload
  simp

/-- Case analysis of `Engine.write` with the erase gate permitting. -/
theorem engine_write_cases (e : Engine) (buffer : Image) (offset length : Nat) :
    (length = 0 ∧ e.write buffer offset length true = (true, e)) ∨
    (length ≠ 0 ∧ e.cursor + frameSize length > flash_sector_size ∧
      e.write buffer offset length true =
        (true, ⟨fun i => buffer i, [], frameSize storage_size⟩)) ∨
    (length ≠ 0 ∧ ¬ e.cursor + frameSize length > flash_sector_size ∧
      e.write buffer offset length true =
        (true, ⟨e.snapshot, e.log ++ [(offset, Engine.payload buffer offset length)],
          e.cursor + frameSize length⟩)) := by
  unfold Engine.write
  by_cases h1 : length = 0
  · exact Or.inl ⟨h1, by rw [if_pos h1]⟩
  · by_cases h2 : e.cursor + frameSize length > flash_sector_size
    · exact Or.inr (Or.inl ⟨h1, h2, by rw [if_neg h1, if_pos h2, if_pos rfl]⟩)
    · exact Or.inr (Or.inr ⟨h1, h2, by rw [if_neg h1, if_neg h2]⟩)

/-- One harness write preserves the invariant. -/
theorem stepWrite_inv (st : TestState) (w : Nat × List Nat)
    (h : HarnessInv st) : HarnessInv (stepWrite st w) := by
  obtain ⟨hre, hbuf⟩ := h
  have hmb : ∀ i, memcpyF st.buffer w.1 w.2 i = memcpyF st.mirror w.1 w.2 i :=
    memcpyF_congr _ _ _ _ hbuf
  have hst : stepWrite st w =
      ⟨memcpyF st.mirror w.1 w.2, memcpyF st.buffer w.1 w.2,
        (st.engine.write (memcpyF st.buffer w.1 w.2) w.1 w.2.length true).2⟩ := rfl
  refine ⟨fun i => ?_, fun i => ?_⟩
  case refine_2 =>
    rw [hst]
    exact hmb i
  rw [hst]
  dsimp only
  rcases engine_write_cases st.engine (memcpyF st.buffer w.1 w.2) w.1
      w.2.length with ⟨h0, he⟩ | ⟨h0, hfull, he⟩ | ⟨h0, hfull, he⟩
  · rw [he]
    show st.engine.replay i = memcpyF st.mirror w.1 w.2 i
    rw [memcpyF_nil _ _ _ h0 i]
    exact hre i
  · rw [he]
    show memcpyF st.buffer w.1 w.2 i = memcpyF st.mirror w.1 w.2 i
    exact hmb i
  · rw [he]
    show Engine.replay ⟨st.engine.snapshot,
        st.engine.log ++ [(w.1, Engine.payload (memcpyF st.buffer w.1 w.2)
          w.1 w.2.length)],
        st.engine.cursor + frameSize w.2.length⟩ i =
      memcpyF st.mirror w.1 w.2 i
    unfold Engine.replay
    dsimp only
    rw [List.foldl_append]
    dsimp only [List.foldl]
    show memcpyF (st.engine.replay) w.1
        (Engine.payload (memcpyF st.buffer w.1 w.2) w.1 w.2.length) i =
      memcpyF st.mirror w.1 w.2 i
    unfold memcpyF
    rw [payload_length]
    split_ifs with hin
    · rw [payload_getD _ _ _ _ (by omega)]
      have he2 : w.1 + (i - w.1) = i := by omega
      rw [he2]
      exact if_pos hin
    · exact hre i

/-- The invariant holds initially and is preserved by any write
sequence. -/
theorem runWrites_inv (ws : List (Nat × List Nat)) :
    ∀ (st : TestState), HarnessInv st → HarnessInv (runWrites st ws) := by
  induction ws with
  | nil => intro st h; exact h
  | cons w ws ih =>
    intro st h
    exact ih _ (stepWrite_inv st w h)

/-- Claim C1: after the first `init()` on empty sectors, any sequence
of in-bounds writes ending with the single byte 42 at offset 37 (erase
gate permitting throughout), re-running `init()` reconstructs exactly
the mirror of all writes: byte 37 is 42 and every other byte still has
its value from before the final write. -/
theorem claim_C1_reinit_reconstructs_mirror (ws : List (Nat × List Nat))
    (_hws : ∀ w ∈ ws, w.1 + w.2.length ≤ storage_size) :
    ((stepWrite (runWrites initialTestState ws) (37, [42])).engine.init).1 = true ∧
    (∀ i, ((stepWrite (runWrites initialTestState ws) (37, [42])).engine.init).2 i =
      (stepWrite (runWrites initialTestState ws) (37, [42])).mirror i) ∧
    ((stepWrite (runWrites initialTestState ws) (37, [42])).engine.init).2 37 = 42 ∧
    (∀ i, i ≠ 37 →
      ((stepWrite (runWrites initialTestState ws) (37, [42])).engine.init).2 i =
        (runWrites initialTestState ws).mirror i) := by
  have h0 : HarnessInv initialTestState := ⟨fun i => rfl, fun i => rfl⟩
  have h1 := runWrites_inv ws initialTestState h0
  have h2 := stepWrite_inv (runWrites initialTestState ws) (37, [42]) h1
  have e2 : (stepWrite (runWrites initialTestState ws) (37, [42])).mirror 37 = 42 := by
    show memcpyF (runWrites initialTestState ws).mirror 37 [42] 37 = 42
    unfold memcpyF
    rw [if_pos (by constructor <;> norm_num)]
    rfl
  refine ⟨rfl, fun i => h2.1 i, (h2.1 37).trans e2, fun i hi => ?_⟩
  have e3 : memcpyF (runWrites initialTestState ws).mirror 37 [42] i =
      (runWrites initialTestState ws).mirror i := by
    unfold memcpyF
    rw [if_neg (by simp only [List.length_singleton]; omega)]
  exact (h2.1 i).trans e3

/-- Witness for C1 with the empty write sequence: the re-initialized
image holds 42 at byte 37. -/
theorem claim_C1_reinit_reconstructs_mirror_witness :
    ((stepWrite (runWrites initialTestState []) (37, [42])).engine.init).2 37 = 42 :=
  (claim_C1_reinit_reconstructs_mirror [] (by simp)).2.2.1

/-- Claim C10: `FlashTest::write` copies the data into both
`mem_mirror` and `mem_buffer` before invoking `storage.write` (which
therefore sees the updated buffer), so the two buffers agree on the
written range whatever `storage.write` returns; and the failure
message is printed only when `storage.write` returned `false` and
`erase_ok` is set. -/
theorem claim_C10_harness_write_updates_both_buffers
    (sw : Image → Nat → Nat → Bool × Engine) (st : TestState)
    (erase_ok : Bool) (offset : Nat) (data : List Nat)
    (_hb : offset + data.length ≤ storage_size) :
    (∀ i, offset ≤ i → i < offset + data.length →
      (FlashTest.write sw st erase_ok offset data).1.mirror i =
        (FlashTest.write sw st erase_ok offset data).1.buffer i ∧
      (FlashTest.write sw st erase_ok offset data).1.buffer i =
        data.getD (i - offset) 0) ∧
    (FlashTest.write sw st erase_ok offset data).1.engine =
      (sw (memcpyF st.buffer offset data) offset data.length).2 ∧
    ((FlashTest.write sw st erase_ok offset data).2 = true →
      erase_ok = true ∧
      (sw (memcpyF st.buffer offset data) offset data.length).1 = false) := by
  refine ⟨fun i h1 h2 => ⟨?_, ?_⟩, rfl, fun hp => ?_⟩
  · show memcpyF st.mirror offset data i = memcpyF st.buffer offset data i
    unfold memcpyF
    rw [if_pos ⟨h1, h2⟩, if_pos ⟨h1, h2⟩]
  · show memcpyF st.buffer offset data i = data.getD (i - offset) 0
    unfold memcpyF
    rw [if_pos ⟨h1, h2⟩]
  · have hp2 : (!(sw (memcpyF st.buffer offset data) offset data.length).1 &&
        erase_ok) = true := hp
    simp only [Bool.and_eq_true, Bool.not_eq_true'] at hp2
    exact ⟨hp2.2, hp2.1⟩

/-- A concrete always-failing `storage.write`, used in the C10
witness. -/
def swFail : Image → Nat → Nat → Bool × Engine := fun _ _ _ => (false, Engine.initial)

/-- Witness for C10 at a concrete failing `storage.write` call with the
erase gate set: the two buffers agree on the written byte and the
failure is reported. -/
theorem claim_C10_harness_write_updates_both_buffers_witness :
    (FlashTest.write swFail initialTestState true 0 [5]).1.mirror 0 =
      (FlashTest.write swFail initialTestState true 0 [5]).1.buffer 0 ∧
    (true = true ∧ (swFail (memcpyF initialTestState.buffer 0 [5]) 0 1).1 = false) :=
  ⟨((claim_C10_harness_write_updates_both_buffers swFail initialTestState true 0
      [5] (by norm_num [storage_size])).1 0 (by norm_num) (by norm_num)).1,
   (claim_C10_harness_write_updates_both_buffers swFail initialTestState true 0
      [5] (by norm_num [storage_size])).2.2 rfl⟩
